import Mathlib

/-!
Verification of the manifest normalization and filtering pipeline of the
cilin_shop gallery component (src/app/ceramic_marble_nocart.jsx, the
`CilinGallery` document).  JavaScript strings are modelled as Lean `String`
(lists of Unicode scalar values); the JS builtins used by the source
(`encodeURIComponent`, `decodeURIComponent`, `String.prototype.trim`,
`Number`, `Array.prototype.sort`) are modelled explicitly below.
-/

namespace Cilin

/-! ## Basic JS string operations -/

/-- JS whitespace test used by `String.prototype.trim` (we model the ASCII
whitespace characters, which are the only ones the claims exercise). -/
def jsWS (c : Char) : Bool := c.isWhitespace

/-- Trim characters from both ends of a char list. -/
def trimChars (l : List Char) : List Char :=
  ((l.dropWhile jsWS).reverse.dropWhile jsWS).reverse

/-- Model of `String.prototype.trim`. -/
def jsTrim (s : String) : String := ⟨trimChars s.data⟩

/-- Model of `String.prototype.startsWith`. -/
def jsStartsWith (s pre : String) : Bool := pre.data.isPrefixOf s.data

/-- Model of `String.prototype.endsWith`. -/
def jsEndsWith (s suf : String) : Bool := suf.data.isSuffixOf s.data

/-- Substring test on char lists: does `p` occur inside `l`? -/
def containsSub (p : List Char) : List Char → Bool
  | [] => p.isPrefixOf []
  | c :: t => p.isPrefixOf (c :: t) || containsSub p t

/-- Model of `String.prototype.includes`. -/
def jsIncludes (s sub : String) : Bool := containsSub sub.data s.data

/-- Model of `String.prototype.toLowerCase` (ASCII range, which is all the
source ever lower-cases in the claims' scope). -/
def jsToLower (s : String) : String := ⟨s.data.map Char.toLower⟩

/-- Model of `String.prototype.split` on a single-char separator `/`. -/
def splitSlash : List Char → List (List Char)
  | [] => [[]]
  | c :: rest =>
    if c = '/' then [] :: splitSlash rest
    else
      match splitSlash rest with
      | h :: t => (c :: h) :: t
      | [] => [[c]]

/-- The `concatMap` on lists (JS's flat-map used to assemble encoded strings). -/
def concatMap (f : α → List β) (l : List α) : List β := (l.map f).flatten

/-! ## `encodeURIComponent` / `decodeURIComponent` models -/

/-- The characters `encodeURIComponent` leaves unescaped
(`A-Z a-z 0-9 - _ . ! ~ * ' ( )` per ECMA-262). -/
def uriUnreserved (c : Char) : Bool :=
  c.isAlphanum || c = '-' || c = '_' || c = '.' || c = '!' || c = '~' ||
  c = '*' || c = Char.ofNat 39 || c = '(' || c = ')'

/-- UTF-8 bytes of a Unicode scalar value. -/
def utf8Bytes (c : Char) : List Nat :=
  let n := c.toNat
  if n < 0x80 then [n]
  else if n < 0x800 then [0xC0 + n / 0x40, 0x80 + n % 0x40]
  else if n < 0x10000 then
    [0xE0 + n / 0x1000, 0x80 + (n / 0x40) % 0x40, 0x80 + n % 0x40]
  else
    [0xF0 + n / 0x40000, 0x80 + (n / 0x1000) % 0x40,
     0x80 + (n / 0x40) % 0x40, 0x80 + n % 0x40]

/-- Upper-case hex digit (as emitted by `encodeURIComponent`). -/
def hexDigit (n : Nat) : Char :=
  if n < 10 then Char.ofNat (48 + n) else Char.ofNat (55 + n)

/-- The `%XX` encoding of one byte. -/
def pctByteChars (b : Nat) : List Char := ['%', hexDigit (b / 16), hexDigit (b % 16)]

/-- Per-character behaviour of `encodeURIComponent`. -/
def encodeCharChars (c : Char) : List Char :=
  if uriUnreserved c then [c] else concatMap pctByteChars (utf8Bytes c)

/-- Model of the JS builtin `encodeURIComponent`. -/
def encodeURIComponent (s : String) : String := ⟨concatMap encodeCharChars s.data⟩

/-- Numeric value of a hex digit character. -/
def hexVal (c : Char) : Option Nat :=
  if '0' ≤ c ∧ c ≤ '9' then some (c.toNat - 48)
  else if 'A' ≤ c ∧ c ≤ 'F' then some (c.toNat - 55)
  else if 'a' ≤ c ∧ c ≤ 'f' then some (c.toNat - 87)
  else none

/-- Percent-decoding with strict UTF-8 validation, the behaviour of the JS
builtin `decodeURIComponent`; `none` models a thrown `URIError`. -/
def pctDecodeChars : List Char → Option (List Char)
  | [] => some []
  | '%' :: h1 :: h2 :: rest =>
    match hexVal h1, hexVal h2 with
    | some a, some b =>
      let b1 := a * 16 + b
      if b1 < 0x80 then (Char.ofNat b1 :: ·) <$> pctDecodeChars rest
      else if b1 < 0xC2 then none
      else if b1 ≤ 0xDF then
        match rest with
        | '%' :: h3 :: h4 :: rest2 =>
          match hexVal h3, hexVal h4 with
          | some c, some d =>
            let b2 := c * 16 + d
            if 0x80 ≤ b2 ∧ b2 ≤ 0xBF then
              (Char.ofNat ((b1 - 0xC0) * 0x40 + (b2 - 0x80)) :: ·) <$> pctDecodeChars rest2
            else none
          | _, _ => none
        | _ => none
      else if b1 ≤ 0xEF then
        match rest with
        | '%' :: h3 :: h4 :: '%' :: h5 :: h6 :: rest2 =>
          match hexVal h3, hexVal h4, hexVal h5, hexVal h6 with
          | some c, some d, some e, some f =>
            let b2 := c * 16 + d
            let b3 := e * 16 + f
            let lo := if b1 = 0xE0 then 0xA0 else 0x80
            let hi := if b1 = 0xED then 0x9F else 0xBF
            if (lo ≤ b2 ∧ b2 ≤ hi) ∧ (0x80 ≤ b3 ∧ b3 ≤ 0xBF) then
              (Char.ofNat ((b1 - 0xE0) * 0x1000 + (b2 - 0x80) * 0x40 + (b3 - 0x80)) :: ·) <$>
                pctDecodeChars rest2
            else none
          | _, _, _, _ => none
        | _ => none
      else if b1 ≤ 0xF4 then
        match rest with
        | '%' :: h3 :: h4 :: '%' :: h5 :: h6 :: '%' :: h7 :: h8 :: rest2 =>
          match hexVal h3, hexVal h4, hexVal h5, hexVal h6, hexVal h7, hexVal h8 with
          | some c, some d, some e, some f, some g, some k =>
            let b2 := c * 16 + d
            let b3 := e * 16 + f
            let b4 := g * 16 + k
            let lo := if b1 = 0xF0 then 0x90 else 0x80
            let hi := if b1 = 0xF4 then 0x8F else 0xBF
            if (lo ≤ b2 ∧ b2 ≤ hi) ∧ (0x80 ≤ b3 ∧ b3 ≤ 0xBF) ∧ (0x80 ≤ b4 ∧ b4 ≤ 0xBF) then
              (Char.ofNat ((b1 - 0xF0) * 0x40000 + (b2 - 0x80) * 0x1000 +
                 (b3 - 0x80) * 0x40 + (b4 - 0x80)) :: ·) <$> pctDecodeChars rest2
            else none
          | _, _, _, _, _, _ => none
        | _ => none
      else none
    | _, _ => none
  | '%' :: _ => none
  | c :: rest => (c :: ·) <$> pctDecodeChars rest

/-- Model of the JS builtin `decodeURIComponent` (`none` = throws). -/
def decodeURIComponentOpt (s : String) : Option String :=
  (pctDecodeChars s.data).map fun l => ⟨l⟩

/-- Model of JS `Number()` restricted to the shapes the manifest produces:
whitespace is trimmed, the empty string is `0`, optionally signed decimal
integer literals parse to their value, anything else is `NaN` (`none`). -/
def jsNumber (s : String) : Option Int :=
  let t := jsTrim s
  if t = "" then some 0
  else
    let (sgn, ds) : Int × List Char :=
      match t.data with
      | '-' :: r => (-1, r)
      | '+' :: r => (1, r)
      | r => (1, r)
    if ds ≠ [] ∧ ds.all Char.isDigit then
      some (sgn * (ds.foldl (fun a c => a * 10 + (c.toNat - 48)) 0 : Nat))
    else none

/-- String form of a JS number (`none` = `NaN`). -/
def jsNumToString : Option Int → String
  | some n => toString n
  | none => "NaN"

/-! ## Data model (`MediaItem`, `MediaKind`) -/

inductive MediaKind where
  | image
  | video
deriving Repr, DecidableEq

structure MediaItem where
  id : Option Int
  rid : Option String
  name : String
  displayName : Option String
  category : Option String
  type : MediaKind
  src : String
  original_ext : Option String
  folder : Option String
  tags : Option String
  colorName : Option String
  colorHex : Option String
  year : Option String
  month : Option String
deriving Repr, DecidableEq

/-! ## Small utils from the source -/

/-- The `isNonEmpty = (s?: string) => !!s && s.trim().length > 0`. -/
def isNonEmpty : Option String → Bool
  | none => false
  | some v => v ≠ "" && jsTrim v ≠ ""

/-- The `splitTags`: comma-split, trim, drop empty tokens. -/
def splitTags (tags : Option String) : List String :=
  if isNonEmpty tags then
    (((tags.getD "").splitOn ",").map jsTrim).filter (· ≠ "")
  else []

/-- The `/^https?:\/\//i` test from `normalizeUrlPath`. -/
def hasProto (p : String) : Bool :=
  jsStartsWith (jsToLower p) "http://" || jsStartsWith (jsToLower p) "https://"

/-- The `normalizeUrlPath`: encode each segment but preserve slashes; external
URLs and the empty string are returned untouched. -/
def normalizeUrlPath (p : String) : String :=
  if p = "" then p
  else if hasProto p then p
  else
    let leading : List Char := if jsStartsWith p "/" then ['/'] else []
    let stripped := p.data.dropWhile (· = '/')
    let parts := (splitSlash stripped).map (concatMap encodeCharChars)
    ⟨leading ++ List.intercalate ['/'] parts⟩

/-- The `shouldSkipPath`: macOS resource forks, hidden files, unsupported
formats. -/
def shouldSkipPath (src : String) : Bool :=
  let s := jsToLower src
  jsIncludes s "/._" || jsEndsWith s ".ds_store" || jsEndsWith s ".heic" ||
  jsEndsWith s ".aae" || jsEndsWith s "thumbs.db"

/-! ## `cleanFileName` -/

def sepChar (c : Char) : Bool := c = '-' || c = '_' || c = ' '

/-- Case-insensitive literal/separator pattern matcher: `some c` matches `c`
(compared lower-cased), `none` matches one of `- _ space`; returns the
remaining input on success. -/
def matchPat : List (Option Char) → List Char → Option (List Char)
  | [], l => some l
  | _ :: _, [] => none
  | some c :: ps, x :: xs => if x.toLower = c then matchPat ps xs else none
  | none :: ps, x :: xs => if sepChar x then matchPat ps xs else none

/-- Pattern of `/^whatsapp[-_ ]image[-_ ]/i`. -/
def whatsappPat : List (Option Char) :=
  "whatsapp".data.map some ++ [none] ++ "image".data.map some ++ [none]

/-- The `replace(/^whatsapp[-_ ]image[-_ ]/i, "")`. -/
def stripWhatsappHead (l : List Char) : List Char := (matchPat whatsappPat l).getD l

/-- Try `/[-_ ]at[-_ ]\d{6,}/i` at the current position; on success return
the input after the (greedy) match. -/
def matchAtStamp : List Char → Option (List Char)
  | s1 :: a :: t :: s2 :: rest =>
    if sepChar s1 && a.toLower = 'a' && t.toLower = 't' && sepChar s2 then
      if 6 ≤ (rest.takeWhile Char.isDigit).length then some (rest.dropWhile Char.isDigit)
      else none
    else none
  | _ => none

/-- The `replace(/[-_ ]at[-_ ]\d{6,}/i, "")`: remove the leftmost match. -/
def removeAtStamp : List Char → List Char
  | [] => []
  | c :: rest =>
    match matchAtStamp (c :: rest) with
    | some rem => rem
    | none => c :: removeAtStamp rest

/-- The extension alternatives of `/\.(jpe?g|png|webp|gif|mp4|mov|mkv|avi)$/i`. -/
def mediaExts : List String :=
  ["jpeg", "jpg", "png", "webp", "gif", "mp4", "mov", "mkv", "avi"]

/-- The `replace(/\.(jpe?g|png|webp|gif|mp4|mov|mkv|avi)$/i, "")`. -/
def stripMediaExt (l : List Char) : List Char :=
  let low := l.map Char.toLower
  match mediaExts.find? (fun e => ('.' :: e.data).isSuffixOf low) with
  | some e => l.take (l.length - (e.length + 1))
  | none => l

def dashChar (c : Char) : Bool := c = '-' || c = '_'

/-- The `replace(/[-_]+/g, " ")`: collapse each run of `-`/`_` to one space. -/
def collapseSeps : List Char → List Char
  | [] => []
  | [c] => if dashChar c then [' '] else [c]
  | c1 :: c2 :: rest =>
    if dashChar c1 then
      if dashChar c2 then collapseSeps (c2 :: rest)
      else ' ' :: collapseSeps (c2 :: rest)
    else c1 :: collapseSeps (c2 :: rest)

/-- The `cleanFileName`. -/
def cleanFileName (s : String) : String :=
  ⟨trimChars (collapseSeps (stripMediaExt (removeAtStamp (stripWhatsappHead s.data))))⟩

/-! ## Category derivation and display names -/

/-- The `ZIP_CATEGORIES`, the fixed reference category list. -/
def ZIP_CATEGORIES : List String :=
  ["مغاسل", "رخام و سيراميك", "درج وطاولات", "خلفيات خشب"]

/-- The sentinel placeholder category. -/
def SENTINEL : String := "منتج"

/-- The `safeDecode`: `decodeURIComponent` falling back to the raw string. -/
def safeDecode (s : String) : String := (decodeURIComponentOpt s).getD s

/-- The `deriveCategoryFromPath`: keep a non-sentinel explicit category, else
scan the decoded `folder`+`src` text for the first reference category. -/
def deriveCategoryFromPath (it : MediaItem) : Option String :=
  let scan : Option String :=
    let hay := safeDecode ((it.folder.getD "") ++ " " ++ it.src)
    ZIP_CATEGORIES.find? (fun cat => jsIncludes hay cat)
  match it.category with
  | some c => if c ≠ "" ∧ c ≠ SENTINEL then some c else scan
  | none => scan

/-- The `buildDisplayName`: category + trimmed color, then category, then
color, then cleaned name. -/
def buildDisplayName (it : MediaItem) : String :=
  let color := (it.colorName.map jsTrim).getD ""
  let cat := it.category.getD ""
  if cat ≠ "" ∧ color ≠ "" then cat ++ " " ++ color
  else if cat ≠ "" then cat
  else if color ≠ "" then color
  else cleanFileName it.name

/-! ## Year/month inference and `normalizeItems` -/

/-- Try the regex `/\/(20\d{2})\/(\d{2})\//` at the current position. -/
def matchYM : List Char → Option (String × String)
  | '/' :: '2' :: '0' :: d1 :: d2 :: '/' :: m1 :: m2 :: '/' :: _ =>
    if d1.isDigit && d2.isDigit && m1.isDigit && m2.isDigit then
      some (⟨['2', '0', d1, d2]⟩, ⟨[m1, m2]⟩)
    else none
  | _ => none

/-- Leftmost match of `/\/(20\d{2})\/(\d{2})\//`. -/
def findYMAux : List Char → Option (String × String)
  | [] => none
  | c :: rest =>
    match matchYM (c :: rest) with
    | some r => some r
    | none => findYMAux rest

/-- The `encodedSrc.match(/\/(20\d{2})\/(\d{2})\//)` (capture groups 1 and 2). -/
def findYM (s : String) : Option (String × String) := findYMAux s.data

/-- The `!it.year || it.year.startsWith?.("unknown")`. -/
def absentOrUnknown : Option String → Bool
  | none => true
  | some s => s = "" || jsStartsWith s "unknown"

/-- The per-item map step of `normalizeItems`. -/
def normalizeOne (it : MediaItem) : MediaItem :=
  let encodedSrc := normalizeUrlPath it.src
  let m := findYM encodedSrc
  let year : Option String :=
    match m with
    | some (y, _) => if absentOrUnknown it.year then some y else it.year
    | none => it.year
  let month : Option String :=
    match m with
    | some (_, mo) => if absentOrUnknown it.month then some mo else it.month
    | none => it.month
  let category := deriveCategoryFromPath { it with src := encodedSrc }
  let displayName := buildDisplayName { it with src := encodedSrc, category := category }
  { it with src := encodedSrc, year := year, month := month,
            category := category, displayName := some displayName }

/-- The `normalizeItems`: map `normalizeOne`, then drop empty/junk `src`. -/
def normalizeItems (arr : List MediaItem) : List MediaItem :=
  (arr.map normalizeOne).filter fun m => isNonEmpty (some m.src) && !shouldSkipPath m.src

/-! ## CSV parser (`parseCSV`, `csvToObjects`) -/

/-- The `stripBOM`: drop one leading byte-order mark. -/
def stripBOM (l : List Char) : List Char :=
  match l with
  | c :: rest => if c.toNat = 0xFEFF then rest else l
  | [] => l

/-- The `text.replace(/\r\n/g, "\n")`: global left-to-right CRLF rewrite. -/
def replaceCRLF : List Char → List Char
  | [] => []
  | [c] => [c]
  | c :: c2 :: rest =>
    if c = '\r' ∧ c2 = '\n' then '\n' :: replaceCRLF rest
    else c :: replaceCRLF (c2 :: rest)

/-- The character scanner of `parseCSV`: state is the quoted flag, the
current field, the current row, and the emitted rows. -/
def runCSV : List Char → Bool → List Char → List (List Char) →
    List (List (List Char)) → List (List (List Char))
  | [], _, cur, row, rows =>
    if 0 < cur.length ∨ 0 < row.length then rows ++ [row ++ [cur]] else rows
  | c :: rest, inQ, cur, row, rows =>
    if inQ then
      if c = '"' then
        match rest with
        | '"' :: rest2 => runCSV rest2 true (cur ++ ['"']) row rows
        | r => runCSV r false cur row rows
      else runCSV rest true (cur ++ [c]) row rows
    else
      if c = '"' then runCSV rest true cur row rows
      else if c = ',' then runCSV rest false [] (row ++ [cur]) rows
      else if c = '\n' then runCSV rest false [] [] (rows ++ [row ++ [cur]])
      else runCSV rest false (cur ++ [c]) row rows

/-- The row filter of `parseCSV`: drop rows that are a single empty field. -/
def keepRow : List (List Char) → Bool
  | [] => false
  | [f] => f ≠ []
  | _ :: _ :: _ => true

/-- The `parseCSV`. -/
def parseCSV (text : String) : List (List String) :=
  ((runCSV (replaceCRLF (stripBOM text.data)) false [] [] []).filter keepRow).map
    fun r => r.map fun f => ⟨f⟩

/-- A row object: JS object with string keys, modelled as an assoc list
with unique keys (later assignments overwrite). -/
abbrev RowObj := List (String × String)

/-- JS property read `o[k]` (`none` = `undefined`). -/
def objGet (o : RowObj) (k : String) : Option String :=
  (o.find? fun p => p.1 = k).map Prod.snd

/-- JS property write `o[k] = v`. -/
def objSet (o : RowObj) (k v : String) : RowObj :=
  if o.any (fun p => p.1 = k) then o.map (fun p => if p.1 = k then (k, v) else p)
  else o ++ [(k, v)]

/-- The `headers.forEach((h, idx) => obj[h] = (r[idx] ?? "").trim())`. -/
def buildObjAux (r : List String) : Nat → List String → RowObj → RowObj
  | _, [], o => o
  | idx, h :: hs, o => buildObjAux r (idx + 1) hs (objSet o h (jsTrim (r.getD idx "")))

/-- The `csvToObjects`. -/
def csvToObjects (text : String) : List RowObj :=
  match parseCSV text with
  | [] => []
  | headerRow :: dataRows =>
    let headers := headerRow.map jsTrim
    dataRows.map fun r => buildObjAux r 0 headers []

/-! ## CSV fallback row mapping (the `load` effect's `rows.map`) -/

/-- One row of the CSV fallback mapped to the `MediaItem` shape
(`data = rows.map((o, idx) => ({...}))` in `load`). -/
def rowToItem (idx : Nat) (o : RowObj) : MediaItem where
  id := match objGet o "id" with
        | none => some ((idx : Int) + 1)
        | some s => jsNumber s
  rid := match objGet o "rid" with
         | some s => if s = "" then none else some s
         | none => none
  name := (objGet o "name").getD ""
  displayName := objGet o "displayName"
  category := match objGet o "category" with
              | some s => if s = "" then none else some s
              | none => none
  type := if objGet o "type" = some "video" then MediaKind.video else MediaKind.image
  src := (objGet o "src").getD ""
  original_ext := objGet o "original_ext"
  folder := objGet o "folder"
  tags := objGet o "tags"
  colorName := objGet o "colorName"
  colorHex := objGet o "colorHex"
  year := objGet o "year"
  month := objGet o "month"

/-- The item list produced from the CSV fallback text. -/
def loadFromCSV (text : String) : List MediaItem :=
  (csvToObjects text).enum.map fun p => rowToItem p.1 p.2

/-! ## Facet extraction (categories component of `unique`) -/

/-- JS `Array.prototype.indexOf` (−1 when absent). -/
def jsIndexOf (l : List String) (c : String) : Int :=
  match l.findIdx? (· = c) with
  | some i => (i : Int)
  | none => -1

/-- Insertion-ordered `Set.add`. -/
def setAdd (acc : List String) (c : String) : List String :=
  if acc.contains c then acc else acc ++ [c]

/-- The comparator `(a, b) => CAT_ORDER.indexOf(a) - CAT_ORDER.indexOf(b)`
as a boolean total preorder. -/
def catLe (a b : String) : Bool := jsIndexOf ZIP_CATEGORIES a ≤ jsIndexOf ZIP_CATEGORIES b

/-- Stable insertion into a sorted list (equal elements keep order). -/
def sortedInsert (le : α → α → Bool) (x : α) : List α → List α
  | [] => [x]
  | y :: ys => if le y x then y :: sortedInsert le x ys else x :: y :: ys

/-- Stable sort by a boolean total preorder; models ES2019+
`Array.prototype.sort` with a consistent comparator (whose output a stable
sort determines uniquely). -/
def stableSort (le : α → α → Bool) (l : List α) : List α :=
  l.foldl (fun acc x => sortedInsert le x acc) []

/-- The `categories` component of the `unique` memo: collect non-empty,
non-sentinel categories in insertion order, then sort by the reference
list's `indexOf`. -/
def uniqueCategories (items : List MediaItem) : List String :=
  let categories := items.foldl
    (fun acc it =>
      if isNonEmpty it.category && it.category ≠ some SENTINEL then
        setAdd acc (it.category.getD "")
      else acc)
    []
  stableSort catLe categories

/-! ## Filter engine (`filtered`) -/

/-- The `${it.rid ?? it.id ?? ""}` (`id` is always a number here). -/
def titleText (it : MediaItem) : String :=
  match it.rid with
  | some r => r
  | none => jsNumToString it.id

/-- The `${category ?? ""} ${colorName ?? ""} ${name ?? ""} ${displayName ?? ""}`. -/
def extraText (it : MediaItem) : String :=
  (it.category.getD "") ++ " " ++ (it.colorName.getD "") ++ " " ++
  it.name ++ " " ++ (it.displayName.getD "")

/-- The per-item predicate of the `filtered` memo. -/
def filterPred (q : String) (activeTags activeCategories : List String)
    (it : MediaItem) : Bool :=
  let qq := jsTrim q
  let nameHit := qq = "" || jsIncludes (titleText it ++ " " ++ extraText it) qq
  let tagHit :=
    if activeTags.isEmpty then true
    else activeTags.any fun t => (splitTags it.tags).contains t || it.colorName = some t
  let catHit :=
    if activeCategories.isEmpty then true
    else activeCategories.contains (it.category.getD "")
  nameHit && tagHit && catHit

/-- The `filtered` memo as a function of its inputs. -/
def filteredFn (items : List MediaItem) (q : String)
    (activeTags activeCategories : List String) : List MediaItem :=
  items.filter (filterPred q activeTags activeCategories)

/-! ## CSV serializer (RFC 4180, documented header order)

The serializer is not part of the source; it is the round-trip partner
described by the spec's CSV round-trip property (§8) with the documented
column names (§6). -/

/-- The documented CSV header order. -/
def CSV_HEADERS : List String :=
  ["id", "rid", "name", "displayName", "category", "type", "src",
   "original_ext", "folder", "tags", "colorName", "colorHex", "year", "month"]

/-- Does the field need RFC 4180 quoting? -/
def needsQuote (v : List Char) : Bool :=
  v.any fun c => c = ',' || c = '"' || c = '\n' || c = '\r'

/-- Double every quote character. -/
def escQuotes : List Char → List Char
  | [] => []
  | c :: rest => if c = '"' then '"' :: '"' :: escQuotes rest else c :: escQuotes rest

/-- RFC 4180 encoding of one field. -/
def fieldChars (v : List Char) : List Char :=
  if needsQuote v then '"' :: (escQuotes v ++ ['"']) else v

/-- One CSV row: fields joined by commas. -/
def rowChars (fields : List (List Char)) : List Char :=
  List.intercalate [','] (fields.map fieldChars)

/-- Serialize records (each a list of field values in `CSV_HEADERS` order)
to CSV text: header row then data rows, joined by newlines. -/
def csvSerialize (records : List (List String)) : String :=
  ⟨List.intercalate ['\n']
    (rowChars (CSV_HEADERS.map String.data) ::
      records.map fun rec => rowChars (rec.map String.data))⟩

/-! ## Sample items used as concrete inputs -/

/-- A minimal well-formed item. -/
def sampleItem : MediaItem where
  id := some 1
  rid := none
  name := "x"
  displayName := none
  category := none
  type := MediaKind.image
  src := "/a.jpg"
  original_ext := none
  folder := none
  tags := none
  colorName := none
  colorHex := none
  year := none
  month := none

/-! ## Helper lemmas about the source functions -/

/-- Every reference category is non-empty and differs from the sentinel. -/
theorem zip_categories_ok : ∀ z ∈ ZIP_CATEGORIES, z ≠ "" ∧ z ≠ SENTINEL := by decide

/-- The `deriveCategoryFromPath` only reads `category`, `folder` and `src`. -/
theorem deriveCategory_congr (a b : MediaItem) (hc : a.category = b.category)
    (hf : a.folder = b.folder) (hs : a.src = b.src) :
    deriveCategoryFromPath a = deriveCategoryFromPath b := by
  unfold deriveCategoryFromPath
  rw [hc, hf, hs]

/-- The `buildDisplayName` only reads `category`, `colorName` and `name`. -/
theorem buildDisplayName_congr (a b : MediaItem) (hc : a.category = b.category)
    (hn : a.colorName = b.colorName) (hm : a.name = b.name) :
    buildDisplayName a = buildDisplayName b := by
  unfold buildDisplayName
  rw [hc, hn, hm]

/-- A category returned by `deriveCategoryFromPath` is never empty and never
the sentinel. -/
theorem deriveCategory_some_props (it : MediaItem) (z : String)
    (h : deriveCategoryFromPath it = some z) : z ≠ "" ∧ z ≠ SENTINEL := by
  unfold deriveCategoryFromPath at h
  have hscan : ∀ w : String,
      ZIP_CATEGORIES.find?
        (fun cat => jsIncludes (safeDecode ((it.folder.getD "") ++ " " ++ it.src)) cat) = some w →
      w ≠ "" ∧ w ≠ SENTINEL := by
    intro w hw
    exact zip_categories_ok w (List.mem_of_find?_eq_some hw)
  cases hc : it.category with
  | none =>
    simp only [hc] at h
    exact hscan z h
  | some c =>
    simp only [hc] at h
    by_cases hg : c ≠ "" ∧ c ≠ SENTINEL
    · rw [if_pos hg] at h
      cases h
      exact hg
    · rw [if_neg hg] at h
      exact hscan z h

/-- Feeding the derived category back into `deriveCategoryFromPath` (with
`folder` and `src` unchanged) is a no-op. -/
theorem deriveCategory_stable (x y : MediaItem) (hf : y.folder = x.folder)
    (hs : y.src = x.src) (hc : y.category = deriveCategoryFromPath x) :
    deriveCategoryFromPath y = deriveCategoryFromPath x := by
  cases hD : deriveCategoryFromPath x with
  | none =>
    rw [hD] at hc
    have hscan :
        ZIP_CATEGORIES.find?
          (fun cat => jsIncludes (safeDecode ((x.folder.getD "") ++ " " ++ x.src)) cat) = none := by
      unfold deriveCategoryFromPath at hD
      cases hx : x.category with
      | none => simp only [hx] at hD; exact hD
      | some c =>
        simp only [hx] at hD
        by_cases hg : c ≠ "" ∧ c ≠ SENTINEL
        · rw [if_pos hg] at hD; cases hD
        · rw [if_neg hg] at hD; exact hD
    unfold deriveCategoryFromPath
    simp only [hc, hf, hs]
    exact hscan
  | some z =>
    rw [hD] at hc
    have hz := deriveCategory_some_props x z hD
    unfold deriveCategoryFromPath
    simp only [hc, hf, hs]
    rw [if_pos hz]

/-- A string built from a cons cell is not the empty string. -/
theorem mk_cons_ne_empty (c : Char) (l : List Char) : (⟨c :: l⟩ : String) ≠ "" := by
  intro h
  have h2 : (⟨c :: l⟩ : String).data = ("" : String).data := congrArg String.data h
  simp only [String.data] at h2
  cases h2

/-- The year captured by the `/\/(20\d{2})\/(\d{2})\//` match starts with
`2`, and the month starts with a digit, so neither is empty or
`unknown`-prefixed. -/
theorem matchYM_eq_some {l : List Char} {y m : String} (h : matchYM l = some (y, m)) :
    absentOrUnknown (some y) = false ∧ absentOrUnknown (some m) = false := by
  unfold matchYM at h
  split at h
  · split at h
    · rename_i d1 d2 m1 m2 rest hdig
      cases h
      have hm1 : m1.isDigit := by
        simp only [Bool.and_eq_true] at hdig
        exact hdig.1.2
      constructor
      · simp [absentOrUnknown, jsStartsWith, List.isPrefixOf, mk_cons_ne_empty]
      · simp only [absentOrUnknown, Bool.or_eq_false_iff]
        constructor
        · simp [mk_cons_ne_empty]
        · simp only [jsStartsWith, List.isPrefixOf]
          have : m1 ≠ 'u' := by
            intro hu
            rw [hu] at hm1
            simp [Char.isDigit] at hm1
          simp [List.isPrefixOf, this]
    · cases h
  · cases h

/-- Leftmost-match version of `matchYM_eq_some`. -/
theorem findYM_eq_some {s : String} {y m : String} (h : findYM s = some (y, m)) :
    absentOrUnknown (some y) = false ∧ absentOrUnknown (some m) = false := by
  unfold findYM at h
  generalize hl : s.data = l at h
  clear hl
  induction l with
  | nil => simp [findYMAux] at h
  | cons c rest ih =>
    rw [findYMAux] at h
    cases hm : matchYM (c :: rest) with
    | some r =>
      rw [hm] at h
      cases h
      exact matchYM_eq_some hm
    | none =>
      rw [hm] at h
      exact ih h

/-! ## Stable sort lemmas -/

theorem mem_sortedInsert (le : α → α → Bool) (x : α) (l : List α) (z : α) :
    z ∈ sortedInsert le x l ↔ z = x ∨ z ∈ l := by
  induction l with
  | nil => simp [sortedInsert]
  | cons y ys ih =>
    by_cases h : le y x = true
    · simp only [sortedInsert, if_pos h, List.mem_cons, ih]
      tauto
    · simp only [sortedInsert, if_neg h, List.mem_cons]

theorem pairwise_sortedInsert (le : α → α → Bool)
    (htot : ∀ a b, le a b = true ∨ le b a = true)
    (htr : ∀ a b c, le a b = true → le b c = true → le a c = true)
    (x : α) (l : List α) (h : l.Pairwise fun a b => le a b = true) :
    (sortedInsert le x l).Pairwise fun a b => le a b = true := by
  induction l with
  | nil => simp [sortedInsert]
  | cons y ys ih =>
    rw [List.pairwise_cons] at h
    obtain ⟨hy, hys⟩ := h
    by_cases hle : le y x = true
    · rw [sortedInsert, if_pos hle, List.pairwise_cons]
      refine ⟨?_, ih hys⟩
      intro z hz
      rcases (mem_sortedInsert le x ys z).mp hz with rfl | hz
      · exact hle
      · exact hy z hz
    · rw [sortedInsert, if_neg hle, List.pairwise_cons]
      have hxy : le x y = true := (htot x y).resolve_right (fun hc => hle hc)
      refine ⟨?_, List.pairwise_cons.mpr ⟨hy, hys⟩⟩
      intro z hz
      rcases List.mem_cons.mp hz with rfl | hz
      · exact hxy
      · exact htr x y z hxy (hy z hz)

/-- The `normalizeOne` is idempotent on items whose `src` is stable under a
second path-encoding pass. -/
theorem normalizeOne_idem (it : MediaItem)
    (h : normalizeUrlPath (normalizeUrlPath it.src) = normalizeUrlPath it.src) :
    normalizeOne (normalizeOne it) = normalizeOne it := by
  set n := normalizeOne it with hn
  have hnsrc : n.src = normalizeUrlPath it.src := rfl
  have hS : normalizeUrlPath n.src = n.src := by rw [hnsrc]; exact h
  have hncat : n.category = deriveCategoryFromPath { it with src := normalizeUrlPath it.src } := rfl
  have hyear0 : n.year = (match findYM (normalizeUrlPath it.src) with
      | some (y, _) => if absentOrUnknown it.year then some y else it.year
      | none => it.year) := rfl
  have hmonth0 : n.month = (match findYM (normalizeUrlPath it.src) with
      | some (_, mo) => if absentOrUnknown it.month then some mo else it.month
      | none => it.month) := rfl
  have hC : deriveCategoryFromPath { n with src := normalizeUrlPath n.src } = n.category := by
    have e1 : deriveCategoryFromPath { n with src := normalizeUrlPath n.src } =
        deriveCategoryFromPath n :=
      deriveCategory_congr _ _ rfl rfl hS
    rw [e1]
    have e2 := deriveCategory_stable { it with src := normalizeUrlPath it.src } n rfl rfl hncat
    rw [e2, ← hncat]
  have hY : (match findYM (normalizeUrlPath n.src) with
      | some (y, _) => if absentOrUnknown n.year then some y else n.year
      | none => n.year) = n.year := by
    rw [hS, hnsrc]
    cases hm : findYM (normalizeUrlPath it.src) with
    | none => rfl
    | some p =>
      obtain ⟨y, mo2⟩ := p
      have hny : n.year = if absentOrUnknown it.year then some y else it.year := by
        rw [hyear0, hm]
      show (if absentOrUnknown n.year then some y else n.year) = n.year
      by_cases hab : absentOrUnknown it.year = true
      · have h1 : n.year = some y := by rw [hny, if_pos hab]
        rw [h1]
        simp [(findYM_eq_some hm).1]
      · have hab2 : absentOrUnknown it.year = false := by
          revert hab; cases absentOrUnknown it.year <;> simp
        have h1 : n.year = it.year := by rw [hny, hab2]; simp
        rw [h1, hab2]
        simp
  have hM : (match findYM (normalizeUrlPath n.src) with
      | some (_, mo) => if absentOrUnknown n.month then some mo else n.month
      | none => n.month) = n.month := by
    rw [hS, hnsrc]
    cases hm : findYM (normalizeUrlPath it.src) with
    | none => rfl
    | some p =>
      obtain ⟨y2, mo⟩ := p
      have hnm : n.month = if absentOrUnknown it.month then some mo else it.month := by
        rw [hmonth0, hm]
      show (if absentOrUnknown n.month then some mo else n.month) = n.month
      by_cases hab : absentOrUnknown it.month = true
      · have h1 : n.month = some mo := by rw [hnm, if_pos hab]
        rw [h1]
        simp [(findYM_eq_some hm).2]
      · have hab2 : absentOrUnknown it.month = false := by
          revert hab; cases absentOrUnknown it.month <;> simp
        have h1 : n.month = it.month := by rw [hnm, hab2]; simp
        rw [h1, hab2]
        simp
  have hD : some (buildDisplayName { n with src := normalizeUrlPath n.src, category := deriveCategoryFromPath { n with src := normalizeUrlPath n.src } }) = n.displayName := by
    have hdn : n.displayName = some (buildDisplayName { it with src := normalizeUrlPath it.src, category := deriveCategoryFromPath { it with src := normalizeUrlPath it.src } }) := rfl
    rw [hdn]
    congr 1
    apply buildDisplayName_congr
    · show deriveCategoryFromPath { n with src := normalizeUrlPath n.src } =
        deriveCategoryFromPath { it with src := normalizeUrlPath it.src }
      rw [hC, hncat]
    · rfl
    · rfl
  calc normalizeOne n = { n with src := normalizeUrlPath n.src, year := (match findYM (normalizeUrlPath n.src) with | some (y, _) => if absentOrUnknown n.year then some y else n.year | none => n.year), month := (match findYM (normalizeUrlPath n.src) with | some (_, mo) => if absentOrUnknown n.month then some mo else n.month | none => n.month), category := deriveCategoryFromPath { n with src := normalizeUrlPath n.src }, displayName := some (buildDisplayName { n with src := normalizeUrlPath n.src, category := deriveCategoryFromPath { n with src := normalizeUrlPath n.src } }) } := rfl
    _ = n := by rw [hD, hC, hY, hM, hS]

theorem pairwise_stableSort (le : α → α → Bool)
    (htot : ∀ a b, le a b = true ∨ le b a = true)
    (htr : ∀ a b c, le a b = true → le b c = true → le a c = true)
    (l : List α) : (stableSort le l).Pairwise fun a b => le a b = true := by
  have aux : ∀ (l acc : List α), acc.Pairwise (fun a b => le a b = true) →
      (l.foldl (fun acc x => sortedInsert le x acc) acc).Pairwise
        fun a b => le a b = true := by
    intro l
    induction l with
    | nil => intro acc h; simpa using h
    | cons x xs ih =>
      intro acc h
      exact ih (sortedInsert le x acc) (pairwise_sortedInsert le htot htr x acc h)
  exact aux l [] List.Pairwise.nil

/-! ## CSV round-trip machinery -/

theorem intercalate_one (s a : List α) : List.intercalate s [a] = a := by
  simp [List.intercalate]

theorem intercalate_cons2 (s a b : List α) (l : List (List α)) :
    List.intercalate s (a :: b :: l) = a ++ s ++ List.intercalate s (b :: l) := by
  simp [List.intercalate, List.intersperse]

theorem mem_intercalate {c : α} (s : List α) (l : List (List α))
    (h : c ∈ List.intercalate s l) : (∃ x ∈ l, c ∈ x) ∨ c ∈ s := by
  induction l with
  | nil => simp [List.intercalate] at h
  | cons a l ih =>
    cases l with
    | nil =>
      rw [intercalate_one] at h
      exact Or.inl ⟨a, by simp, h⟩
    | cons b l2 =>
      rw [intercalate_cons2] at h
      rcases List.mem_append.mp h with h1 | h2
      · rcases List.mem_append.mp h1 with h3 | h4
        · exact Or.inl ⟨a, by simp, h3⟩
        · exact Or.inr h4
      · rcases ih h2 with ⟨x, hx, hcx⟩ | hs
        · exact Or.inl ⟨x, by simp [hx], hcx⟩
        · exact Or.inr hs

theorem mem_escQuotes {c : Char} (v : List Char) (h : c ∈ escQuotes v) :
    c ∈ v ∨ c = '"' := by
  induction v with
  | nil => simp [escQuotes] at h
  | cons x xs ih =>
    by_cases hx : x = '"'
    · rw [escQuotes, if_pos hx] at h
      rcases List.mem_cons.mp h with rfl | h
      · exact Or.inr rfl
      · rcases List.mem_cons.mp h with rfl | h
        · exact Or.inr rfl
        · rcases ih h with h | h
          · exact Or.inl (List.mem_cons_of_mem _ h)
          · exact Or.inr h
    · rw [escQuotes, if_neg hx] at h
      rcases List.mem_cons.mp h with rfl | h
      · exact Or.inl (List.mem_cons_self _ _)
      · rcases ih h with h | h
        · exact Or.inl (List.mem_cons_of_mem _ h)
        · exact Or.inr h

theorem mem_fieldChars {c : Char} (v : List Char) (h : c ∈ fieldChars v) :
    c ∈ v ∨ c = '"' := by
  unfold fieldChars at h
  by_cases hq : needsQuote v = true
  · rw [if_pos hq] at h
    rcases List.mem_cons.mp h with rfl | h
    · exact Or.inr rfl
    · rcases List.mem_append.mp h with h | h
      · exact mem_escQuotes v h
      · simp at h
        exact Or.inr h
  · rw [if_neg hq] at h
    exact Or.inl h

/-- The header row of the serialized CSV, as characters. -/
theorem header_row_no_cr : ∀ c ∈ rowChars (CSV_HEADERS.map String.data), c ≠ '\r' := by
  decide

/-- The serialized text contains no carriage return when no value does. -/
theorem serialize_no_cr (records : List (List String))
    (hvals : ∀ rec ∈ records, ∀ v ∈ rec, ∀ c ∈ v.data, c ≠ '\r') :
    ∀ c ∈ (csvSerialize records).data, c ≠ '\r' := by
  intro c hc
  have hc2 : c ∈ List.intercalate ['\n']
      (rowChars (CSV_HEADERS.map String.data) ::
        records.map fun rec => rowChars (rec.map String.data)) := hc
  rcases mem_intercalate _ _ hc2 with ⟨x, hx, hcx⟩ | hs
  · rcases List.mem_cons.mp hx with rfl | hx
    · exact header_row_no_cr c hcx
    · rcases List.mem_map.mp hx with ⟨rec, hrec, rfl⟩
      rcases mem_intercalate _ _ hcx with ⟨fc, hfc, hcfc⟩ | hsep
      · rcases List.mem_map.mp hfc with ⟨vd, hvd, rfl⟩
        rcases List.mem_map.mp hvd with ⟨v, hv, rfl⟩
        rcases mem_fieldChars _ hcfc with h | rfl
        · exact hvals rec hrec v hv c h
        · decide
      · simp at hsep
        subst hsep
        decide
  · simp at hs
    subst hs
    decide

/-- The `replaceCRLF` is the identity on carriage-return-free text. -/
theorem replaceCRLF_eq_self (l : List Char) (h : ∀ c ∈ l, c ≠ '\r') :
    replaceCRLF l = l := by
  induction l with
  | nil => rfl
  | cons c t ih =>
    cases t with
    | nil => rfl
    | cons c2 t2 =>
      rw [replaceCRLF, if_neg]
      · rw [ih]
        intro x hx
        exact h x (List.mem_cons_of_mem _ hx)
      · intro hcontra
        exact h c (List.mem_cons_self _ _) hcontra.1

/-- The `stripBOM` is the identity when the first character is not the BOM. -/
theorem stripBOM_eq_self (l : List Char) (h : ∀ c, l.head? = some c → c.toNat ≠ 0xFEFF) :
    stripBOM l = l := by
  cases l with
  | nil => rfl
  | cons c t =>
    rw [stripBOM, if_neg]
    exact h c rfl

/-- One-step unfolding of `runCSV` on empty input. -/
theorem runCSV_nil_input (inQ : Bool) (cur : List Char) (row : List (List Char))
    (rows : List (List (List Char))) :
    runCSV [] inQ cur row rows =
      if 0 < cur.length ∨ 0 < row.length then rows ++ [row ++ [cur]] else rows := by
  rw [runCSV.eq_def]

/-- One-step unfolding of `runCSV` on a cons cell. -/
theorem runCSV_cons (c : Char) (rest : List Char) (inQ : Bool) (cur : List Char)
    (row : List (List Char)) (rows : List (List (List Char))) :
    runCSV (c :: rest) inQ cur row rows =
      (if inQ then
        if c = '"' then
          match rest with
          | '"' :: rest2 => runCSV rest2 true (cur ++ ['"']) row rows
          | r => runCSV r false cur row rows
        else runCSV rest true (cur ++ [c]) row rows
      else
        if c = '"' then runCSV rest true cur row rows
        else if c = ',' then runCSV rest false [] (row ++ [cur]) rows
        else if c = '\n' then runCSV rest false [] [] (rows ++ [row ++ [cur]])
        else runCSV rest false (cur ++ [c]) row rows) := by
  rw [runCSV.eq_def]

/-- An unquoted serialized field is consumed into the current field. -/
theorem runCSV_unquoted : ∀ (v rest cur : List Char) (row : List (List Char))
    (rows : List (List (List Char))),
    (∀ c ∈ v, c ≠ '"' ∧ c ≠ ',' ∧ c ≠ '\n') →
    runCSV (v ++ rest) false cur row rows = runCSV rest false (cur ++ v) row rows := by
  intro v
  induction v with
  | nil =>
    intro rest cur row rows _
    simp
  | cons c v2 ih =>
    intro rest cur row rows hv
    obtain ⟨h1, h2, h3⟩ := hv c (List.mem_cons_self _ _)
    have hv2 : ∀ x ∈ v2, x ≠ '"' ∧ x ≠ ',' ∧ x ≠ '\n' :=
      fun x hx => hv x (List.mem_cons_of_mem _ hx)
    show runCSV (c :: (v2 ++ rest)) false cur row rows = _
    rw [runCSV_cons]
    simp only [if_neg h1, if_neg h2, if_neg h3, Bool.false_eq_true, if_false]
    rw [ih rest (cur ++ [c]) row rows hv2]
    simp

/-- The quoted body of a serialized field is consumed into the current
field, and the closing quote leaves quoted mode (provided the following
character is not another quote). -/
theorem runCSV_quoted : ∀ (v rest cur : List Char) (row : List (List Char))
    (rows : List (List (List Char))),
    rest.head? ≠ some '"' →
    runCSV (escQuotes v ++ '"' :: rest) true cur row rows =
      runCSV rest false (cur ++ v) row rows := by
  intro v
  induction v with
  | nil =>
    intro rest cur row rows hrest
    show runCSV ('"' :: rest) true cur row rows = _
    rw [runCSV_cons]
    simp only [if_pos rfl, if_true]
    cases rest with
    | nil => simp
    | cons r0 rtail =>
      have hr0 : r0 ≠ '"' := by
        intro h
        rw [h] at hrest
        exact hrest rfl
      split
      · rename_i rest2 heq
        injection heq with heq1 _
        exact absurd heq1 hr0
      · simp
  | cons x v2 ih =>
    intro rest cur row rows hrest
    by_cases hx : x = '"'
    · subst hx
      rw [escQuotes, if_pos rfl]
      show runCSV ('"' :: ('"' :: (escQuotes v2 ++ '"' :: rest))) true cur row rows = _
      rw [runCSV_cons]
      simp only [if_pos rfl, if_true]
      rw [ih rest (cur ++ ['"']) row rows hrest]
      simp
    · rw [escQuotes, if_neg hx]
      show runCSV (x :: (escQuotes v2 ++ '"' :: rest)) true cur row rows = _
      rw [runCSV_cons]
      simp only [if_pos rfl, if_neg hx, if_true]
      rw [ih rest (cur ++ [x]) row rows hrest]
      simp

/-- A serialized field (quoted or not) is consumed into the current field. -/
theorem runCSV_field (v rest cur : List Char) (row : List (List Char))
    (rows : List (List (List Char))) (hrest : rest.head? ≠ some '"') :
    runCSV (fieldChars v ++ rest) false cur row rows =
      runCSV rest false (cur ++ v) row rows := by
  by_cases hq : needsQuote v = true
  · rw [fieldChars, if_pos hq]
    have hstep : runCSV (('"' :: (escQuotes v ++ ['"'])) ++ rest) false cur row rows =
        runCSV ((escQuotes v ++ ['"']) ++ rest) true cur row rows := by
      rw [List.cons_append, runCSV_cons]
      simp
    rw [hstep, List.append_assoc]
    exact runCSV_quoted v rest cur row rows hrest
  · rw [fieldChars, if_neg hq]
    apply runCSV_unquoted
    intro c hc
    have hno : ¬(c = ',' || c = '"' || c = '\n' || c = '\r') = true := by
      intro hcontra
      rw [needsQuote] at hq
      exact hq (List.any_eq_true.mpr ⟨c, hc, hcontra⟩)
    simp only [Bool.or_eq_true, decide_eq_true_eq, not_or] at hno
    exact ⟨hno.1.1.2, hno.1.1.1, hno.1.2⟩

theorem rowChars_one (f : List Char) : rowChars [f] = fieldChars f := by
  unfold rowChars
  rw [List.map_cons, List.map_nil, intercalate_one]

theorem rowChars_cons2 (f g : List Char) (gs : List (List Char)) :
    rowChars (f :: g :: gs) = fieldChars f ++ ',' :: rowChars (g :: gs) := by
  unfold rowChars
  rw [List.map_cons, List.map_cons, intercalate_cons2, List.append_assoc]
  rfl

/-- One-step: a comma outside quotes ends the current field. -/
theorem runCSV_comma (rest cur : List Char) (row : List (List Char))
    (rows : List (List (List Char))) :
    runCSV (',' :: rest) false cur row rows = runCSV rest false [] (row ++ [cur]) rows := by
  rw [runCSV_cons]
  simp

/-- One-step: a newline outside quotes ends the current row. -/
theorem runCSV_nl (rest cur : List Char) (row : List (List Char))
    (rows : List (List (List Char))) :
    runCSV ('\n' :: rest) false cur row rows =
      runCSV rest false [] [] (rows ++ [row ++ [cur]]) := by
  rw [runCSV_cons]
  simp

/-- A serialized row followed by a newline emits the row's fields. -/
theorem runCSV_row_newline : ∀ (fields : List (List Char)) (f0 : List Char)
    (row : List (List Char)) (rows : List (List (List Char))) (rest2 : List Char),
    runCSV (rowChars (f0 :: fields) ++ '\n' :: rest2) false [] row rows =
      runCSV rest2 false [] [] (rows ++ [row ++ f0 :: fields]) := by
  intro fields
  induction fields with
  | nil =>
    intro f0 row rows rest2
    rw [rowChars_one]
    rw [runCSV_field f0 ('\n' :: rest2) [] row rows (by simp)]
    rw [List.nil_append, runCSV_nl]
  | cons g gs ih =>
    intro f0 row rows rest2
    rw [rowChars_cons2]
    rw [List.append_assoc, List.cons_append]
    rw [runCSV_field f0 (',' :: (rowChars (g :: gs) ++ '\n' :: rest2)) [] row rows (by simp)]
    rw [List.nil_append, runCSV_comma]
    rw [ih g (row ++ [f0]) rows rest2]
    simp

/-- A serialized row at the end of input emits the row's fields. -/
theorem runCSV_row_eof : ∀ (fields : List (List Char)) (f0 : List Char)
    (row : List (List Char)) (rows : List (List (List Char))),
    ¬(row = [] ∧ f0 :: fields = [[]]) →
    runCSV (rowChars (f0 :: fields)) false [] row rows = rows ++ [row ++ f0 :: fields] := by
  intro fields
  induction fields with
  | nil =>
    intro f0 row rows hne
    have hfr : runCSV (rowChars [f0]) false [] row rows = runCSV [] false ([] ++ f0) row rows := by
      rw [rowChars_one]
      rw [show fieldChars f0 = fieldChars f0 ++ [] by simp]
      exact runCSV_field f0 [] [] row rows (by simp)
    rw [hfr, runCSV_nil_input, if_pos]
    · simp
    · by_cases hf : f0 = []
      · subst hf
        right
        have hrow : row ≠ [] := by
          intro hr
          exact hne ⟨hr, rfl⟩
        cases row with
        | nil => exact absurd rfl hrow
        | cons a t => simp
      · left
        cases f0 with
        | nil => exact absurd rfl hf
        | cons a t => simp
  | cons g gs ih =>
    intro f0 row rows hne
    rw [rowChars_cons2]
    rw [runCSV_field f0 (',' :: rowChars (g :: gs)) [] row rows (by simp)]
    rw [List.nil_append, runCSV_comma]
    rw [ih g (row ++ [f0]) rows (by simp)]
    simp

/-- A serialized sequence of rows (each with at least two fields) parses
back to exactly those rows. -/
theorem runCSV_rows : ∀ (rws : List (List (List Char)))
    (rows : List (List (List Char))),
    rws ≠ [] → (∀ r ∈ rws, 2 ≤ r.length) →
    runCSV (List.intercalate ['\n'] (rws.map rowChars)) false [] [] rows = rows ++ rws := by
  intro rws
  induction rws with
  | nil => intro rows h _; exact absurd rfl h
  | cons r rws2 ih =>
    intro rows _ hlen
    cases rws2 with
    | nil =>
      rw [List.map_cons, List.map_nil, intercalate_one]
      have h2 : 2 ≤ r.length := hlen r (List.mem_cons_self _ _)
      cases r with
      | nil => simp at h2
      | cons f0 fields =>
        rw [runCSV_row_eof fields f0 [] rows ?hne]
        · simp
        case hne =>
          intro hcontra
          rw [hcontra.2] at h2
          simp at h2
    | cons r2 rws3 =>
      rw [List.map_cons, List.map_cons, intercalate_cons2]
      rw [List.append_assoc, List.singleton_append]
      have h2 : 2 ≤ r.length := hlen r (List.mem_cons_self _ _)
      cases r with
      | nil => simp at h2
      | cons f0 fields =>
        rw [runCSV_row_newline fields f0 [] rows
          (List.intercalate ['\n'] (rowChars r2 :: List.map rowChars rws3))]
        have hih := ih (rows ++ [[] ++ f0 :: fields]) (by simp)
          (fun x hx => hlen x (List.mem_cons_of_mem _ hx))
        rw [List.map_cons] at hih
        rw [hih]
        simp

theorem keepRow_of_len (r : List (List Char)) (h : 2 ≤ r.length) : keepRow r = true := by
  cases r with
  | nil => simp at h
  | cons a t =>
    cases t with
    | nil => simp at h
    | cons b t2 => rfl

/-- The `stripBOM` ignores a leading block that does not start with a BOM. -/
theorem stripBOM_append (a b : List Char) (ha : a ≠ [])
    (h : ∀ c, a.head? = some c → c.toNat ≠ 0xFEFF) : stripBOM (a ++ b) = a ++ b := by
  cases a with
  | nil => exact absurd rfl ha
  | cons c t =>
    rw [List.cons_append, stripBOM, if_neg]
    exact h c rfl

/-- Parsing the serialized CSV recovers the header row and all records. -/
theorem parseCSV_serialize (records : List (List String))
    (hlen : ∀ rec ∈ records, rec.length = CSV_HEADERS.length)
    (hnocr : ∀ rec ∈ records, ∀ v ∈ rec, ∀ c ∈ v.data, c ≠ '\r') :
    parseCSV (csvSerialize records) = CSV_HEADERS :: records := by
  have hnocr2 : ∀ c ∈ (csvSerialize records).data, c ≠ '\r' := serialize_no_cr records hnocr
  have hcrlf : replaceCRLF ((csvSerialize records).data) = (csvSerialize records).data :=
    replaceCRLF_eq_self _ hnocr2
  have hbomh : ∀ c, (rowChars (CSV_HEADERS.map String.data)).head? = some c →
      c.toNat ≠ 0xFEFF := by decide
  have hbomne : rowChars (CSV_HEADERS.map String.data) ≠ [] := by decide
  have hT : (csvSerialize records).data = List.intercalate ['\n']
      (rowChars (CSV_HEADERS.map String.data) ::
        records.map fun rec => rowChars (rec.map String.data)) := rfl
  have hbom : stripBOM ((csvSerialize records).data) = (csvSerialize records).data := by
    rw [hT]
    cases hrec : records.map fun rec => rowChars (rec.map String.data) with
    | nil =>
      rw [intercalate_one]
      exact stripBOM_eq_self _ hbomh
    | cons b lb =>
      rw [intercalate_cons2, List.append_assoc]
      exact stripBOM_append _ _ hbomne hbomh
  have hdata : (csvSerialize records).data = List.intercalate ['\n']
      ((((CSV_HEADERS.map String.data)) :: records.map fun rec => rec.map String.data).map
        rowChars) := by
    rw [hT, List.map_cons, List.map_map]
    rfl
  unfold parseCSV
  rw [hbom, hcrlf, hdata]
  rw [runCSV_rows _ [] (by simp) ?hlen2]
  case hlen2 =>
    intro r hr
    rcases List.mem_cons.mp hr with rfl | hr
    · decide
    · rcases List.mem_map.mp hr with ⟨rec, hrec, rfl⟩
      rw [List.length_map, hlen rec hrec]
      decide
  rw [List.nil_append]
  rw [List.filter_eq_self.mpr ?keep]
  case keep =>
    intro r hr
    rcases List.mem_cons.mp hr with rfl | hr
    · decide
    · rcases List.mem_map.mp hr with ⟨rec, hrec, rfl⟩
      apply keepRow_of_len
      rw [List.length_map, hlen rec hrec]
      decide
  rw [List.map_cons, List.map_map, List.map_map]
  have hhdr : CSV_HEADERS.map ((fun f => (⟨f⟩ : String)) ∘ String.data) = CSV_HEADERS := by
    decide
  rw [hhdr]
  have hrec2 : records.map ((fun r => r.map fun f => (⟨f⟩ : String)) ∘
      fun rec => rec.map String.data) = records := by
    conv_rhs => rw [← List.map_id records]
    apply List.map_congr_left
    intro rec _
    show (rec.map String.data).map (fun f => (⟨f⟩ : String)) = rec
    rw [List.map_map]
    conv_rhs => rw [← List.map_id rec]
    apply List.map_congr_left
    intro v _
    rfl
  rw [hrec2]

/-- Setting a fresh key appends it. -/
theorem objSet_fresh (o : RowObj) (k v : String) (h : ∀ p ∈ o, p.1 ≠ k) :
    objSet o k v = o ++ [(k, v)] := by
  unfold objSet
  rw [if_neg]
  intro hcontra
  rcases List.any_eq_true.mp hcontra with ⟨p, hp, hpk⟩
  exact h p hp (by simpa using hpk)

/-- The `buildObjAux` over distinct fresh headers appends one trimmed cell per
header, in order. -/
theorem buildObjAux_eq (r : List String) : ∀ (hs : List String) (idx : Nat) (o : RowObj),
    hs.Nodup → (∀ h ∈ hs, ∀ p ∈ o, p.1 ≠ h) →
    buildObjAux r idx hs o =
      o ++ (hs.enumFrom idx).map fun p => (p.2, jsTrim (r.getD p.1 "")) := by
  intro hs
  induction hs with
  | nil =>
    intro idx o _ _
    simp [buildObjAux]
  | cons h hs2 ih =>
    intro idx o hnodup hfresh
    rw [buildObjAux]
    rw [objSet_fresh o h _ (hfresh h (List.mem_cons_self _ _))]
    rw [ih (idx + 1) (o ++ [(h, jsTrim (r.getD idx ""))]) (List.Nodup.of_cons hnodup) ?fresh2]
    · rw [List.enumFrom]
      simp
    case fresh2 =>
      intro h2 hh2 p hp
      rcases List.mem_append.mp hp with hp | hp
      · exact hfresh h2 (List.mem_cons_of_mem _ hh2) p hp
      · have hph : p = (h, jsTrim (r.getD idx "")) := by simpa using hp
        rw [hph]
        show h ≠ h2
        have hnmem : h ∉ hs2 := (List.nodup_cons.mp hnodup).1
        intro hcontra
        rw [hcontra] at hnmem
        exact hnmem hh2

theorem getD_eq_of_drop (l : List α) : ∀ (n : Nat) (v : α) (vs : List α) (d : α),
    l.drop n = v :: vs → l.getD n d = v := by
  induction l with
  | nil =>
    intro n v vs d h
    simp at h
  | cons a t ih =>
    intro n v vs d h
    cases n with
    | zero =>
      simp at h
      simp [h.1]
    | succ n2 =>
      rw [List.drop_succ_cons] at h
      rw [List.getD_cons_succ]
      exact ih n2 v vs d h

theorem drop_succ_of_drop (l : List α) (n : Nat) (v : α) (vs : List α)
    (h : l.drop n = v :: vs) : l.drop (n + 1) = vs := by
  have h2 : l.drop (n + 1) = (l.drop n).drop 1 := by
    rw [List.drop_drop]
  rw [h2, h]
  rfl

/-- Enumerated lookup along a record equals the zip of headers with the
(trimmed) record values. -/
theorem enumFrom_map_zip (f : String → String) : ∀ (hs vs : List String) (idx : Nat)
    (rfull : List String),
    rfull.drop idx = vs → vs.length = hs.length →
    ((hs.enumFrom idx).map fun p => (p.2, f (rfull.getD p.1 ""))) = hs.zip (vs.map f) := by
  intro hs
  induction hs with
  | nil =>
    intro vs idx rfull _ hlen
    simp
  | cons h hs2 ih =>
    intro vs idx rfull hdrop hlen
    cases vs with
    | nil => simp at hlen
    | cons v vs2 =>
      have hv : rfull.getD idx "" = v := getD_eq_of_drop rfull idx v vs2 "" hdrop
      have hdrop2 : rfull.drop (idx + 1) = vs2 := drop_succ_of_drop rfull idx v vs2 hdrop
      have hlen2 : vs2.length = hs2.length := by
        simpa using hlen
      rw [List.enumFrom, List.map_cons]
      simp only [hv]
      rw [ih vs2 (idx + 1) rfull hdrop2 hlen2]
      simp

/-- C2 (amended): serializing records (RFC 4180, documented header order)
and re-parsing via `csvToObjects` yields records field-wise equal to the
originals, for all values that contain no carriage return and are
unchanged by trimming; `csvToObjects` trims every cell, so values with
leading or trailing whitespace do not round-trip. -/
theorem c2_csv_roundtrip_trimmed (records : List (List String))
    (hlen : ∀ rec ∈ records, rec.length = CSV_HEADERS.length)
    (hvals : ∀ rec ∈ records, ∀ v ∈ rec, (∀ c ∈ v.data, c ≠ '\r') ∧ jsTrim v = v) :
    csvToObjects (csvSerialize records) = records.map fun rec => CSV_HEADERS.zip rec := by
  unfold csvToObjects
  rw [parseCSV_serialize records hlen (fun rec hrec v hv => (hvals rec hrec v hv).1)]
  show records.map (fun r => buildObjAux r 0 (CSV_HEADERS.map jsTrim) []) = _
  have htrimH : CSV_HEADERS.map jsTrim = CSV_HEADERS := by decide
  rw [htrimH]
  apply List.map_congr_left
  intro rec hrec
  rw [buildObjAux_eq rec CSV_HEADERS 0 [] (by decide) (by simp)]
  rw [List.nil_append]
  rw [enumFrom_map_zip jsTrim CSV_HEADERS rec 0 rec (by simp) (hlen rec hrec)]
  congr 1
  conv_rhs => rw [← List.map_id rec]
  apply List.map_congr_left
  intro v hv
  exact (hvals rec hrec v hv).2

/-- Record used by the C2 counterexample and witness. -/
def c2Rec : List String := ["1", "", " a ", "", "", "", "/s.jpg", "", "", "", "", "", "", ""]

set_option maxRecDepth 16384 in
/-- C2 counterexample: a `name` value with surrounding spaces does not
round-trip — `csvToObjects` trims every cell, so `" a "` comes back as
`"a"` and the parsed record differs from the original. -/
theorem c2_csv_roundtrip_whitespace_cex :
    (csvToObjects (csvSerialize [c2Rec])).map (fun o => objGet o "name") = [some "a"] ∧
    (some "a" : Option String) ≠ some " a " ∧
    csvToObjects (csvSerialize [c2Rec]) ≠ [CSV_HEADERS.zip c2Rec] := by
  refine ⟨by decide, by decide, by decide⟩

/-- Trim-stable record used by the C2 witness. -/
def c2RecW : List String :=
  ["1", "r", "n", "d", "c", "video", "/s.jpg", "jpg", "f", "t", "col", "hex", "2020", "05"]

/-- C2 witness: the amended round-trip on a concrete record. -/
theorem c2_witness :
    csvToObjects (csvSerialize [c2RecW]) = [c2RecW].map fun rec => CSV_HEADERS.zip rec :=
  c2_csv_roundtrip_trimmed [c2RecW] (by decide) (by decide)

/-! ## Claims -/

/-- Item used by the C1 counterexample: a `src` containing a space. -/
def c1Item : MediaItem := { sampleItem with src := "/a b.jpg" }

/-- C1 counterexample: `normalizeItems` is not idempotent.  A space in
`src` is encoded to `%20` by the first pass and the `%` is re-encoded to
`%25` by the second pass, so the two results differ. -/
theorem c1_normalize_not_idempotent_cex :
    normalizeItems (normalizeItems [c1Item]) ≠ normalizeItems [c1Item] ∧
    (normalizeItems [c1Item]).map (fun it => it.src) = ["/a%20b.jpg"] ∧
    (normalizeItems (normalizeItems [c1Item])).map (fun it => it.src) = ["/a%2520b.jpg"] := by
  refine ⟨by decide, by decide, by decide⟩

/-- C1 (amended): `normalizeItems` is idempotent on lists whose every
item's `src` is stable under a second `normalizeUrlPath` pass (for
example, paths whose segments contain only characters `encodeURIComponent`
leaves unescaped, or external URLs); re-normalizing such a list leaves
every field, including `src`, unchanged. -/
theorem c1_normalize_idempotent_on_stable_src (arr : List MediaItem)
    (h : ∀ it ∈ arr, normalizeUrlPath (normalizeUrlPath it.src) = normalizeUrlPath it.src) :
    normalizeItems (normalizeItems arr) = normalizeItems arr := by
  unfold normalizeItems
  have hidm : ∀ x ∈ (arr.map normalizeOne).filter
      (fun m => isNonEmpty (some m.src) && !shouldSkipPath m.src), normalizeOne x = x := by
    intro x hx
    rcases List.mem_filter.mp hx with ⟨hx2, _⟩
    rcases List.mem_map.mp hx2 with ⟨a, ha, rfl⟩
    exact normalizeOne_idem a (h a ha)
  have hmap : ((arr.map normalizeOne).filter
      (fun m => isNonEmpty (some m.src) && !shouldSkipPath m.src)).map normalizeOne =
      (arr.map normalizeOne).filter
        (fun m => isNonEmpty (some m.src) && !shouldSkipPath m.src) := by
    conv_rhs => rw [← List.map_id ((arr.map normalizeOne).filter
      (fun m => isNonEmpty (some m.src) && !shouldSkipPath m.src))]
    exact List.map_congr_left hidm
  rw [hmap]
  apply List.filter_eq_self.mpr
  intro a ha
  exact (List.mem_filter.mp ha).2

/-- C1 witness: a concrete stable list. -/
theorem c1_witness :
    normalizeItems (normalizeItems [sampleItem]) = normalizeItems [sampleItem] :=
  c1_normalize_idempotent_on_stable_src [sampleItem] (by decide)

/-- Item used by the C3 counterexample: `year` provided (not unknown),
`month` absent, and a `/2023/05/` segment in `src`. -/
def c3Item : MediaItem := { sampleItem with src := "/m/2023/05/x.jpg", year := some "2019" }

/-- C3 counterexample: for an item whose `year` is present and does not
begin with "unknown", the claim says `month` is left exactly as provided
(here: absent), but the code sets `month` from the path match. -/
theorem c3_month_gate_cex :
    c3Item.year = some "2019" ∧ c3Item.month = none ∧
    (normalizeItems [c3Item]).map (fun it => (it.year, it.month)) =
      [(some "2019", some "05")] ∧
    (some "05" : Option String) ≠ none := by
  refine ⟨rfl, rfl, by decide, by decide⟩

/-- C3 (amended): year and month inference are gated independently, each
on its own field: when the encoded `src` contains a `/20NN/NN/` segment,
`year` is set from the match iff `year` is absent/empty or begins with
"unknown" (and kept otherwise), and `month` is set from the match iff
`month` is absent/empty or begins with "unknown" (and kept otherwise);
without a match both are kept. -/
theorem c3_year_month_independent_gates (it : MediaItem) :
    (∀ y m, findYM (normalizeUrlPath it.src) = some (y, m) →
      ((absentOrUnknown it.year = true → (normalizeOne it).year = some y) ∧
       (absentOrUnknown it.year = false → (normalizeOne it).year = it.year) ∧
       (absentOrUnknown it.month = true → (normalizeOne it).month = some m) ∧
       (absentOrUnknown it.month = false → (normalizeOne it).month = it.month))) ∧
    (findYM (normalizeUrlPath it.src) = none →
      (normalizeOne it).year = it.year ∧ (normalizeOne it).month = it.month) := by
  constructor
  · intro y m hm
    have hy : (normalizeOne it).year =
        (if absentOrUnknown it.year then some y else it.year) := by
      show (match findYM (normalizeUrlPath it.src) with
        | some (y2, _) => if absentOrUnknown it.year then some y2 else it.year
        | none => it.year) = _
      rw [hm]
    have hmo : (normalizeOne it).month =
        (if absentOrUnknown it.month then some m else it.month) := by
      show (match findYM (normalizeUrlPath it.src) with
        | some (_, mo2) => if absentOrUnknown it.month then some mo2 else it.month
        | none => it.month) = _
      rw [hm]
    refine ⟨fun hab => ?_, fun hab => ?_, fun hab => ?_, fun hab => ?_⟩ <;>
      simp [hy, hmo, hab]
  · intro hm
    constructor
    · show (match findYM (normalizeUrlPath it.src) with
        | some (y2, _) => if absentOrUnknown it.year then some y2 else it.year
        | none => it.year) = it.year
      rw [hm]
    · show (match findYM (normalizeUrlPath it.src) with
        | some (_, mo2) => if absentOrUnknown it.month then some mo2 else it.month
        | none => it.month) = it.month
      rw [hm]

/-- C3 witness: the amended gating evaluated on a concrete item. -/
theorem c3_witness : (normalizeOne c3Item).year = c3Item.year ∧
    (normalizeOne c3Item).month = some "05" :=
  ⟨((c3_year_month_independent_gates c3Item).1 "2023" "05" (by decide)).2.1 (by decide),
   ((c3_year_month_independent_gates c3Item).1 "2023" "05" (by decide)).2.2.1 (by decide)⟩

/-- C4 counterexample: with categories `مغاسل` (reference index 0) and
`q` (not in the reference list), the facet list places `q` first:
`indexOf` yields −1 for unknown categories, which sorts them before all
reference entries, not after. -/
theorem c4_unknown_category_first_cex :
    uniqueCategories [{ sampleItem with category := some "مغاسل" },
      { sampleItem with category := some "q" }] = ["q", "مغاسل"] ∧
    jsIndexOf ZIP_CATEGORIES "q" = -1 ∧
    jsIndexOf ZIP_CATEGORIES "مغاسل" = 0 := by
  refine ⟨by decide, by decide, by decide⟩

/-- C4 (amended): the extracted category facet list is sorted by the
reference-list index with absent categories counted as −1: reference
categories appear in reference order, and categories not in the reference
list appear before (not after) all reference-list categories. -/
theorem c4_categories_sorted_by_reference_index (items : List MediaItem) :
    (uniqueCategories items).Pairwise
      (fun a b => jsIndexOf ZIP_CATEGORIES a ≤ jsIndexOf ZIP_CATEGORIES b) := by
  have htot : ∀ a b : String, catLe a b = true ∨ catLe b a = true := by
    intro a b
    unfold catLe
    rcases le_total (jsIndexOf ZIP_CATEGORIES a) (jsIndexOf ZIP_CATEGORIES b) with hle | hle
    · left; simpa using hle
    · right; simpa using hle
  have htr : ∀ a b c : String, catLe a b = true → catLe b c = true → catLe a c = true := by
    intro a b c hab hbc
    unfold catLe at *
    simp only [decide_eq_true_eq] at *
    exact le_trans hab hbc
  have hp := pairwise_stableSort catLe htot htr
    (items.foldl (fun acc it =>
      if isNonEmpty it.category && it.category ≠ some SENTINEL then
        setAdd acc (it.category.getD "")
      else acc) [])
  unfold uniqueCategories
  exact hp.imp (fun hab => by simpa [catLe] using hab)

/-- Item used by the C6 counterexample: the folder from the claim, whose
first letter is a Latin `r`, not the Arabic `ر`. -/
def c6Item : MediaItem := { sampleItem with folder := some "rخام و سيراميك/sub", src := "/x.jpg" }

/-- Item with the Arabic-spelled folder. -/
def c6ItemAr : MediaItem := { sampleItem with folder := some "رخام و سيراميك/sub", src := "/x.jpg" }

/-- C6 counterexample: with `folder = "rخام و سيراميك/sub"` (Latin `r`),
no explicit category and a neutral `src`, normalization leaves the
category absent — none of the reference labels (all spelled with the
Arabic `ر`) occurs in the scanned text. -/
theorem c6_latin_r_folder_cex :
    (normalizeItems [c6Item]).map (fun it => it.category) = [none] ∧
    ([none] : List (Option String)) ≠ [some "رخام و سيراميك"] := by
  refine ⟨by decide, by decide⟩

/-- C6 (amended): for the Arabic-spelled folder
`"رخام و سيراميك/sub"`, no explicit category and a `src` without a
category label, normalization assigns `category = "رخام و سيراميك"`. -/
theorem c6_arabic_folder_category :
    (normalizeItems [c6ItemAr]).map (fun it => it.category) = [some "رخام و سيراميك"] := by
  decide

/-- C7: the sentinel placeholder category never survives normalization:
every item in the output of `normalizeItems` has a category that is
either absent or differs from `"منتج"`. -/
theorem c7_no_sentinel_category (arr : List MediaItem) (it : MediaItem)
    (h : it ∈ normalizeItems arr) : it.category ≠ some SENTINEL := by
  unfold normalizeItems at h
  rcases List.mem_filter.mp h with ⟨hmap, _⟩
  rcases List.mem_map.mp hmap with ⟨a, _, rfl⟩
  show deriveCategoryFromPath { a with src := normalizeUrlPath a.src } ≠ some SENTINEL
  intro hEq
  exact (deriveCategory_some_props _ _ hEq).2 rfl

/-- C7 witness: a concrete normalized item. -/
theorem c7_witness :
    ({ sampleItem with displayName := some "x" } : MediaItem) ∈ normalizeItems [sampleItem] ∧
    ({ sampleItem with displayName := some "x" } : MediaItem).category ≠ some SENTINEL :=
  ⟨by decide, c7_no_sentinel_category [sampleItem] _ (by decide)⟩

/-- Item used by the C8 counterexample: a whitespace-only `colorName`. -/
def c8Item : MediaItem := { sampleItem with name := "", colorName := some " " }

/-- C8 counterexample: `colorName = " "` is a non-empty string, yet the
derived display name is empty, because the code trims `colorName` before
testing it and the cleaned empty `name` contributes nothing. -/
theorem c8_displayname_empty_cex :
    buildDisplayName c8Item = "" ∧ c8Item.colorName = some " " ∧ (" " : String) ≠ "" := by
  refine ⟨by decide, rfl, by decide⟩

/-- C8 (amended): the display name follows the priority order
category + " " + trimmed colorName, then category, then trimmed
colorName, then cleaned name, and it is non-empty whenever the category
is non-empty, the trimmed colorName is non-empty, or the cleaned name
is non-empty. -/
theorem c8_displayname_priority (it : MediaItem) :
    (buildDisplayName it =
      (if it.category.getD "" ≠ "" ∧ ((it.colorName.map jsTrim).getD "") ≠ "" then
        it.category.getD "" ++ " " ++ (it.colorName.map jsTrim).getD ""
      else if it.category.getD "" ≠ "" then it.category.getD ""
      else if ((it.colorName.map jsTrim).getD "") ≠ "" then (it.colorName.map jsTrim).getD ""
      else cleanFileName it.name)) ∧
    ((it.category.getD "" ≠ "" ∨ ((it.colorName.map jsTrim).getD "") ≠ "" ∨
        cleanFileName it.name ≠ "") →
      buildDisplayName it ≠ "") := by
  have hb : buildDisplayName it =
      (if it.category.getD "" ≠ "" ∧ ((it.colorName.map jsTrim).getD "") ≠ "" then
        it.category.getD "" ++ " " ++ (it.colorName.map jsTrim).getD ""
      else if it.category.getD "" ≠ "" then it.category.getD ""
      else if ((it.colorName.map jsTrim).getD "") ≠ "" then (it.colorName.map jsTrim).getD ""
      else cleanFileName it.name) := rfl
  refine ⟨hb, ?_⟩
  intro hsome
  rw [hb]
  by_cases h1 : it.category.getD "" ≠ "" ∧ ((it.colorName.map jsTrim).getD "") ≠ ""
  · rw [if_pos h1]
    intro heq
    have h2 : (it.category.getD "" ++ " " ++ (it.colorName.map jsTrim).getD "").data =
        ("" : String).data := congrArg String.data heq
    rw [String.data_append, String.data_append] at h2
    simp [String.data] at h2
  · rw [if_neg h1]
    by_cases h2 : it.category.getD "" ≠ ""
    · rw [if_pos h2]; exact h2
    · rw [if_neg h2]
      by_cases h3 : ((it.colorName.map jsTrim).getD "") ≠ ""
      · rw [if_pos h3]; exact h3
      · rw [if_neg h3]
        rcases hsome with h | h | h
        · exact absurd h h2
        · exact absurd h h3
        · exact h

/-- C8 witness: the priority characterization evaluated concretely. -/
theorem c8_witness : buildDisplayName sampleItem ≠ "" :=
  (c8_displayname_priority sampleItem).2 (Or.inr (Or.inr (by decide)))

/-- C9: filtering with an all-whitespace query (so that the trimmed query
is empty), no selected tags and no selected categories returns the input
list unchanged, in order. -/
theorem c9_empty_filter_passthrough (items : List MediaItem) (q : String)
    (hq : jsTrim q = "") : filteredFn items q [] [] = items := by
  unfold filteredFn
  apply List.filter_eq_self.mpr
  intro it _
  simp [filterPred, hq]

/-- C9 witness: concrete passthrough. -/
theorem c9_witness : filteredFn [sampleItem] " " [] [] = [sampleItem] :=
  c9_empty_filter_passthrough [sampleItem] " " (by decide)

/-- C5 counterexample: a CSV row whose `id` column is present but empty
yields `Number("") = 0`, not the 1-based row position (which is 1 here). -/
theorem c5_empty_id_cex :
    (loadFromCSV "id,name\n,foo").map (fun it => it.id) = [some 0] ∧
    (some 0 : Option Int) ≠ some 1 := by
  refine ⟨by decide, by decide⟩

/-- C5 (amended): the 1-based row-position fallback applies only when the
row object has no `id` key at all (no `id` column in the header); a
present-but-empty `id` yields `Number("") = 0` instead. -/
theorem c5_id_fallback (idx : Nat) (o : RowObj) :
    (objGet o "id" = none → (rowToItem idx o).id = some ((idx : Int) + 1)) ∧
    (objGet o "id" = some "" → (rowToItem idx o).id = some 0) := by
  constructor
  · intro h
    show (match objGet o "id" with
      | none => some ((idx : Int) + 1)
      | some s => jsNumber s) = _
    rw [h]
  · intro h
    show (match objGet o "id" with
      | none => some ((idx : Int) + 1)
      | some s => jsNumber s) = _
    rw [h]
    rfl

/-- C5 witness: both fallback branches on concrete rows. -/
theorem c5_witness : (rowToItem 0 [("name", "foo")]).id = some 1 ∧
    (rowToItem 0 [("id", ""), ("name", "foo")]).id = some 0 :=
  ⟨(c5_id_fallback 0 [("name", "foo")]).1 (by decide),
   (c5_id_fallback 0 [("id", ""), ("name", "foo")]).2 (by decide)⟩

/-- C10: for a row object produced by `csvToObjects` (whose values are the
trimmed CSV cells), the constructed item's `type` is `video` exactly when
the row's `type` value is the string "video", and `image` for every other
value — no third kind exists. -/
theorem c10_csv_type_gate (text : String) (idx : Nat) (o : RowObj)
    (_ho : o ∈ csvToObjects text) :
    ((rowToItem idx o).type = MediaKind.video ↔ objGet o "type" = some "video") ∧
    ((rowToItem idx o).type = MediaKind.image ↔ objGet o "type" ≠ some "video") := by
  have ht : (rowToItem idx o).type =
      (if objGet o "type" = some "video" then MediaKind.video else MediaKind.image) := rfl
  by_cases h : objGet o "type" = some "video"
  · rw [ht, if_pos h]
    constructor
    · simp [h]
    · simp [h]
  · rw [ht, if_neg h]
    constructor
    · simp [h]
    · simp [h]

/-- C10 witness: a concrete CSV-loaded row. -/
theorem c10_witness :
    ((rowToItem 0 [("type", "video")]).type = MediaKind.video ↔
      objGet [("type", "video")] "type" = some "video") ∧
    ((rowToItem 0 [("type", "video")]).type = MediaKind.image ↔
      objGet [("type", "video")] "type" ≠ some "video") :=
  c10_csv_type_gate "type\nvideo" 0 [("type", "video")] (by decide)

end Cilin
